import Mathlib

/-!
Verification development for the tzbundler IANA tzdata parser
(`src/tzbundler/make_tz_bundle.py`).

The Python parser is shallowly embedded: every definition below mirrors a
function or a code path of the source file.  Python dictionaries (which
preserve insertion order) are modelled as association lists; the mutable
per-file `current_zone` variable is threaded explicitly through the line
loop; exceptions caught by the per-line `try/except` are modelled by
`Option` results (every exception in the source is raised before any state
mutation, so a failed line leaves the accumulated state untouched);
`logging.warning` calls that the claims talk about are modelled by an
explicit log-event list in the parser state.
-/

set_option autoImplicit false

namespace Tzbundler

/-- Helper for `pySplit`: scan the characters, accumulating the current
token in reverse; whitespace closes the current token (empty runs produce
no token, so separator runs collapse). -/
def pySplitGo : List Char → List Char → List String
  | [], acc => if acc = [] then [] else [String.mk acc.reverse]
  | c :: cs, acc =>
    if c.isWhitespace then
      if acc = [] then pySplitGo cs []
      else String.mk acc.reverse :: pySplitGo cs []
    else pySplitGo cs (c :: acc)

/-- Python `str.split()` with no separator: split on runs of whitespace,
dropping empty tokens (used for every tzdata record line). -/
def pySplit (s : String) : List String :=
  pySplitGo s.data []

/-- Python `str.strip()`: drop leading and trailing whitespace. -/
def pyStrip (s : String) : String :=
  String.mk (((s.data.dropWhile Char.isWhitespace).reverse.dropWhile
    Char.isWhitespace).reverse)

/-- Python `line.startswith('#')` on the stripped line. -/
def startsWithHash (s : String) : Bool :=
  match s.data with
  | c :: _ => c = '#'
  | [] => false

/-- Python `s[:n]` (slicing by code points). -/
def pyTake (s : String) (n : Nat) : String :=
  String.mk (s.data.take n)

/-- Python `s[n:]` (slicing by code points). -/
def pyDrop (s : String) (n : Nat) : String :=
  String.mk (s.data.drop n)

/-- Python `sep.join(xs)`, as used for `" ".join(parts[5:])` when the UNTIL
tokens of a Zone record are re-joined. -/
def pyJoin (sep : String) : List String → String
  | [] => ""
  | [x] => x
  | x :: y :: ys => x ++ sep ++ pyJoin sep (y :: ys)

/-- `Transition` dataclass of `make_tz_bundle.py`.  The Python code attaches
`rule_name` dynamically (`transition.rule_name = rule`); it is modelled as an
ordinary optional field, `none` standing for the attribute being `None`. -/
structure Transition where
  to_utc : String
  offset : String
  abbr : String
  rule_name : Option String
deriving DecidableEq, Repr

/-- `Zone` dataclass of `make_tz_bundle.py`. -/
structure Zone where
  name : String
  country_code : String := ""
  latitude : String := ""
  longitude : String := ""
  comment : String := ""
  transitions : List Transition := []
  aliases : List String := []
  win_names : List String := []
deriving DecidableEq, Repr

/-- One record of the `rules` table built by `parse_rule_line` (the dict with
keys `from`, `to`, `type`, `in`, `on`, `at`, `save`, `letter`). -/
structure RuleRecord where
  from_year : String
  to_year : String
  type : String
  in_month : String
  on_day : String
  at_time : String
  save : String
  letter : String
deriving DecidableEq, Repr

/-- The `logging.warning` calls of the parser that the specification talks
about: the per-line `except` handler (which interpolates the file name and
the 1-based line number) and the dangling-Link warning. -/
inductive LogEvent where
  | parseError (fname : String) (lineNum : Nat)
  | danglingLink (al : String) (target : String)
deriving DecidableEq, Repr

/-- The state accumulated by `parse_zone_files`: the `zones`, `rules` and
`links` dictionaries (as insertion-ordered association lists) plus the log. -/
structure ParseState where
  zones : List Zone
  rules : List (String × List RuleRecord)
  links : List (String × String)
  logs : List LogEvent
deriving DecidableEq, Repr

def initState : ParseState := ⟨[], [], [], []⟩

/-- Append a value to the list stored under `k`, creating the entry at the
end when absent — the Python pattern `if k not in d: d[k] = []` followed by
`d[k].append(v)` on an insertion-ordered dict. -/
def dictAppend {β : Type} (m : List (String × List β)) (k : String) (v : β) :
    List (String × List β) :=
  match m with
  | [] => [(k, [v])]
  | (k2, vs) :: rest =>
    if k2 = k then (k2, vs ++ [v]) :: rest else (k2, vs) :: dictAppend rest k v

/-- Lookup in an insertion-ordered dict of lists, defaulting to `[]`. -/
def dictGet {β : Type} (m : List (String × List β)) (k : String) : List β :=
  match m.find? (fun p => p.1 = k) with
  | some p => p.2
  | none => []

/-- `links[alias] = target` on an insertion-ordered dict: overwrite in place
when the key exists, append otherwise. -/
def setLink (links : List (String × String)) (al target : String) :
    List (String × String) :=
  match links with
  | [] => [(al, target)]
  | (a, t) :: rest =>
    if a = al then (a, target) :: rest else (a, t) :: setLink rest al target

/-- `parse_zone_line`: fields are `[keyword, name, offset, rule, abbr,
UNTIL tokens...]`; raises `IndexError` (modelled by `none`) on fewer than 5
fields.  `to_utc` is `" ".join(parts[5:])`, with `None`/empty coalesced to
`""` by the `to_utc or ""` in the source. -/
def parse_zone_line (parts : List String) : Option (String × Transition) :=
  match parts with
  | _ :: name :: offset :: rule :: abbr :: rest =>
    some (name,
      { to_utc := pyJoin " " rest, offset := offset, abbr := abbr,
        rule_name := some rule })
  | _ => none

/-- `parse_rule_line`: needs fields 1–8 (9 fields), with an optional 10th
`letter` field defaulting to `""`; appends the record to the named rule set.
Raises (modelled by `none`) on fewer than 9 fields, before any mutation. -/
def parse_rule_line (parts : List String)
    (rules : List (String × List RuleRecord)) :
    Option (List (String × List RuleRecord)) :=
  match parts with
  | _ :: name :: f :: t :: ty :: im :: od :: av :: sv :: rest =>
    some (dictAppend rules name ⟨f, t, ty, im, od, av, sv, rest.headD ""⟩)
  | _ => none

/-- `if name not in zones: zones[name] = Zone(name=name)`. -/
def ensureZone (zones : List Zone) (name : String) : List Zone :=
  if zones.any (fun z => z.name = name) then zones
  else zones ++ [{ name := name }]

/-- `zones[name].transitions.append(transition)` (a no-op when the key is
absent; in the source that situation would raise a `KeyError` caught by the
same per-line handler, and is unreachable because `current_zone` is only set
right after its zone is inserted). -/
def addTransition (zones : List Zone) (name : String) (t : Transition) :
    List Zone :=
  zones.map (fun z =>
    if z.name = name then { z with transitions := z.transitions ++ [t] } else z)

/-- The body of the per-line loop of `parse_zone_files`: strip, skip blanks
and comments, split, then dispatch on the first field exactly as the
`if/elif` chain does.  Returns the new state and the new `current_zone`. -/
def process_line (fname : String) (num : Nat) (st : ParseState)
    (cz : Option String) (line : String) : ParseState × Option String :=
  if pyStrip line = "" then (st, cz)
  else if startsWithHash (pyStrip line) then (st, cz)
  else
    match pySplit (pyStrip line) with
    | [] => (st, cz)
    | p0 :: rest =>
      if p0 = "Zone" then
        match parse_zone_line (p0 :: rest) with
        | some (name, t) =>
          ({ st with zones := addTransition (ensureZone st.zones name) name t },
           some name)
        | none =>
          ({ st with logs := st.logs ++ [LogEvent.parseError fname num] }, cz)
      else if p0 = "Rule" then
        match parse_rule_line (p0 :: rest) st.rules with
        | some rules2 => ({ st with rules := rules2 }, cz)
        | none =>
          ({ st with logs := st.logs ++ [LogEvent.parseError fname num] }, cz)
      else if p0 = "Link" then
        match rest with
        | target :: al :: _ => ({ st with links := setLink st.links al target }, cz)
        | _ => (st, cz)
      else
        match cz with
        | some c =>
          match parse_zone_line ("Zone" :: c :: p0 :: rest) with
          | some (name, t) =>
            ({ st with zones := addTransition st.zones name t }, cz)
          | none =>
            ({ st with logs := st.logs ++ [LogEvent.parseError fname num] }, cz)
        | none => (st, cz)

/-- The `for line_num, line in enumerate(f, 1)` loop over one file's lines. -/
def process_lines (fname : String) (st : ParseState) (cz : Option String)
    (num : Nat) : List String → ParseState
  | [] => st
  | line :: rest =>
    let r := process_line fname num st cz line
    process_lines fname r.1 r.2 (num + 1) rest

/-- Processing one file: `current_zone` starts as `None`, line numbers at 1. -/
def process_file (st : ParseState) (fname : String) (lines : List String) :
    ParseState :=
  process_lines fname st none 1 lines

/-- One step of the alias-resolution loop that runs after all files are
parsed: append the alias to an existing target zone, or create a placeholder
zone and log a warning. -/
def resolve_link (acc : List Zone × List LogEvent) (pair : String × String) :
    List Zone × List LogEvent :=
  if acc.1.any (fun z => z.name = pair.2) then
    (acc.1.map (fun z =>
       if z.name = pair.2 then { z with aliases := z.aliases ++ [pair.1] } else z),
     acc.2)
  else
    (acc.1 ++ [{ name := pair.2, aliases := [pair.1] }],
     acc.2 ++ [LogEvent.danglingLink pair.1 pair.2])

/-- `for alias, target in links.items(): ...` in insertion order. -/
def resolve_links (st : ParseState) : ParseState :=
  let r := st.links.foldl resolve_link (st.zones, st.logs)
  { st with zones := r.1, logs := r.2 }

/-- Observation: the transition list currently stored for zone `n` (empty
when the zone is not in the table). -/
def transitionsOf (zones : List Zone) (n : String) : List Transition :=
  match zones.find? (fun z => z.name = n) with
  | some z => z.transitions
  | none => []

/-- The lines on which the per-line `try` body of `parse_zone_files` raises:
a `Zone` record with fewer than 5 fields, a `Rule` record with fewer than 9
fields, or a continuation record that yields fewer than 5 fields once the
implicit `Zone`/current-zone fields are prepended.  (These index accesses
are the only raising operations in the loop body, and each happens before
any state mutation.) -/
def line_raises (cz : Option String) (line : String) : Bool :=
  if pyStrip line = "" then false
  else if startsWithHash (pyStrip line) then false
  else
    match pySplit (pyStrip line) with
    | [] => false
    | p0 :: rest =>
      if p0 = "Zone" then decide ((p0 :: rest).length < 5)
      else if p0 = "Rule" then decide ((p0 :: rest).length < 9)
      else if p0 = "Link" then false
      else
        match cz with
        | some c => decide ((["Zone", c] ++ p0 :: rest).length < 5)
        | none => false

/-- `parse_zone_files`, as a pure function of the sequence of input files
(name, lines).  The source iterates a fixed list of region file names and
skips missing ones; the argument here is the resulting sequence of files
actually read, in that order.  All builder state (`zones`, `rules`, `links`)
is created afresh on every call, exactly as the Python locals are. -/
def parse_zone_files (files : List (String × List String)) : ParseState :=
  resolve_links (files.foldl (fun st f => process_file st f.1 f.2) initState)

/-- One record of the `zone1970.tab` metadata dict (`parse_zone1970_tab`). -/
structure ZoneMeta where
  country_code : String
  coordinates : String
  comment : String
deriving DecidableEq, Repr

/-- `metadata.get(name)` on the zone1970.tab dict. -/
def metaGet (metadata : List (String × ZoneMeta)) (k : String) :
    Option ZoneMeta :=
  (metadata.find? (fun p => p.1 = k)).map (fun p => p.2)

/-- The rule-name clean-up in `merge_metadata_with_zones`: the attached
rule literal becomes `None` when falsy or `"-"`, otherwise it is kept. -/
def normalizeTransition (t : Transition) : Transition :=
  { t with rule_name :=
      match t.rule_name with
      | some r => if r ≠ "" ∧ r ≠ "-" then some r else none
      | none => none }

/-- The metadata half of the per-zone loop body in
`merge_metadata_with_zones`: copy country code and comment from a matching
metadata record and split the coordinate text at the midpoint when it is
non-empty and at least 4 characters long (`if coords and len(coords) >= 4`).
Zones without a matching record are left untouched. -/
def mergeZoneMetaFields (metadata : List (String × ZoneMeta)) (zone : Zone) :
    Zone :=
  match metaGet metadata zone.name with
  | some meta =>
    if meta.coordinates ≠ "" ∧ 4 ≤ meta.coordinates.length then
      { zone with
        country_code := meta.country_code
        comment := meta.comment
        latitude := pyTake meta.coordinates (meta.coordinates.length / 2)
        longitude := pyDrop meta.coordinates (meta.coordinates.length / 2) }
    else
      { zone with
        country_code := meta.country_code
        comment := meta.comment }
  | none => zone

/-- The per-zone body of the loop in `merge_metadata_with_zones`: first the
metadata fields, then the rule-name clean-up on every transition. -/
def mergeZoneMeta (metadata : List (String × ZoneMeta)) (zone : Zone) : Zone :=
  { mergeZoneMetaFields metadata zone with
    transitions :=
      (mergeZoneMetaFields metadata zone).transitions.map
        normalizeTransition }

/-- `merge_metadata_with_zones` (the zones dict is mutated in place in the
source; each zone is updated independently of the others, so the loop is a
map over the table). -/
def merge_metadata_with_zones (zones : List Zone)
    (metadata : List (String × ZoneMeta)) : List Zone :=
  zones.map (mergeZoneMeta metadata)

/-- A `mapZone` element of `windowsZones.xml` as seen after XML parsing:
its three attributes, each possibly absent (`attrib.get`). -/
structure MapZone where
  territory : Option String
  other : Option String
  type : Option String
deriving DecidableEq, Repr

/-- One iteration of the inner `for iana_name in iana_names` loop: append
the platform name under the zone name in the first map and the zone name
under the platform name in the second. -/
def addMapping (w : String)
    (acc : List (String × List String) × List (String × List String))
    (z : String) : List (String × List String) × List (String × List String) :=
  (dictAppend acc.1 z w, dictAppend acc.2 w z)

/-- The body of the `for mapZone in root.findall(...)` loop: skip elements
with a falsy platform name or an empty zone-name list, otherwise append to
both directional maps for every listed IANA name. -/
def winStep (acc : List (String × List String) × List (String × List String))
    (e : MapZone) : List (String × List String) × List (String × List String) :=
  match e.other with
  | none => acc
  | some w =>
    if w = "" then acc
    else
      match pySplit (e.type.getD "") with
      | [] => acc
      | ianas => ianas.foldl (addMapping w) acc

/-- `parse_windows_zones_xml`: only elements whose `territory` attribute is
exactly `"001"` are visited (the XPath filter), in document order. -/
def parse_windows_zones_xml (elems : List MapZone) :
    List (String × List String) × List (String × List String) :=
  (elems.filter (fun e => e.territory = some "001")).foldl winStep ([], [])

/-! ### Helper lemmas -/

theorem mk_ne_empty {l : List Char} (h : l ≠ []) : String.mk l ≠ "" := by
  intro he
  exact h (congrArg String.data he)

theorem pySplitGo_mem_ne (cs : List Char) :
    ∀ (acc : List Char) (s : String), s ∈ pySplitGo cs acc → s ≠ "" := by
  induction cs with
  | nil =>
    intro acc s hs
    unfold pySplitGo at hs
    split at hs
    · simp at hs
    · rename_i hacc
      simp only [List.mem_singleton] at hs
      subst hs
      exact mk_ne_empty (by simpa using hacc)
  | cons c cs ih =>
    intro acc s hs
    unfold pySplitGo at hs
    split at hs
    · split at hs
      · exact ih [] s hs
      · rename_i hacc
        rcases List.mem_cons.mp hs with h1 | h2
        · subst h1
          exact mk_ne_empty (by simpa using hacc)
        · exact ih [] s h2
    · exact ih _ s hs

/-- Tokens produced by Python `str.split()` are never empty strings. -/
theorem pySplit_mem_ne (l : String) (s : String) (hs : s ∈ pySplit l) :
    s ≠ "" :=
  pySplitGo_mem_ne _ _ _ hs

/-- `" ".join` of nonempty tokens is empty exactly when there are none. -/
theorem pyJoin_eq_empty_iff (xs : List String) (hxs : ∀ s ∈ xs, s ≠ "") :
    (pyJoin " " xs = "" ↔ xs = []) := by
  cases xs with
  | nil => simp [pyJoin]
  | cons x ys =>
    cases ys with
    | nil =>
      simp only [pyJoin, List.cons_ne_nil, iff_false]
      exact hxs x (by simp)
    | cons y ys =>
      simp only [pyJoin, List.cons_ne_nil, iff_false]
      intro h
      have hd := congrArg String.data h
      rw [String.data_append, String.data_append] at hd
      have : (" " : String).data = [' '] := rfl
      rw [this] at hd
      simp at hd

theorem parse_zone_line_eq_none_iff (parts : List String) :
    parse_zone_line parts = none ↔ parts.length < 5 := by
  rcases parts with _ | ⟨a, _ | ⟨b, _ | ⟨c, _ | ⟨d, _ | ⟨e, r⟩⟩⟩⟩⟩ <;>
    simp [parse_zone_line]

theorem parse_rule_line_eq_none_iff (parts : List String)
    (rules : List (String × List RuleRecord)) :
    parse_rule_line parts rules = none ↔ parts.length < 9 := by
  rcases parts with _ | ⟨a, _ | ⟨b, _ | ⟨c, _ | ⟨d, _ | ⟨e, _ | ⟨f, _ |
    ⟨g, _ | ⟨h, _ | ⟨i, r⟩⟩⟩⟩⟩⟩⟩⟩⟩ <;>
    simp [parse_rule_line]

/-- Inversion: a successfully parsed Zone record has at least 5 fields, its
4th field is the attached rule literal (an element of the record), and its
UNTIL text is the re-joined trailing tokens. -/
theorem parse_zone_line_some (parts : List String) (name : String)
    (t : Transition) (h : parse_zone_line parts = some (name, t)) :
    t.rule_name = some (parts.getD 3 "") ∧ parts.getD 3 "" ∈ parts ∧
      t.to_utc = pyJoin " " (parts.drop 5) ∧ 5 ≤ parts.length := by
  rcases parts with _ | ⟨a, _ | ⟨b, _ | ⟨c, _ | ⟨d, _ | ⟨e, r⟩⟩⟩⟩⟩ <;>
    simp [parse_zone_line] at h
  obtain ⟨h1, h2⟩ := h
  subst h2
  refine ⟨rfl, by simp [List.getD], rfl, by simp⟩

theorem addTransition_find? (zones : List Zone) (name : String)
    (t : Transition) (n : String) :
    (addTransition zones name t).find? (fun z => z.name = n) =
      ((zones.find? (fun z => z.name = n)).map (fun z =>
        if z.name = name then { z with transitions := z.transitions ++ [t] }
        else z)) := by
  unfold addTransition
  rw [List.find?_map]
  have hfun : ((fun z => decide (z.name = n)) ∘ (fun z =>
      if z.name = name then { z with transitions := z.transitions ++ [t] }
      else z)) = (fun (z : Zone) => decide (z.name = n)) := by
    funext z
    by_cases hz : z.name = name <;> simp [hz]
  rw [hfun]

theorem transitionsOf_addTransition_ne (zones : List Zone) (name : String)
    (t : Transition) (n : String) (h : n ≠ name) :
    transitionsOf (addTransition zones name t) n = transitionsOf zones n := by
  unfold transitionsOf
  rw [addTransition_find?]
  cases hf : zones.find? (fun z => z.name = n) with
  | none => rfl
  | some z =>
    have hz : z.name = n := by simpa using List.find?_some hf
    simp [hz, h]

theorem transitionsOf_addTransition_self (zones : List Zone) (name : String)
    (t : Transition) (hmem : zones.any (fun z => z.name = name) = true) :
    transitionsOf (addTransition zones name t) name =
      transitionsOf zones name ++ [t] := by
  unfold transitionsOf
  rw [addTransition_find?]
  cases hf : zones.find? (fun z => z.name = name) with
  | none =>
    rw [List.find?_eq_none] at hf
    rw [List.any_eq_true] at hmem
    obtain ⟨z, hz, hzn⟩ := hmem
    exact absurd hzn (hf z hz)
  | some z =>
    have hz : z.name = name := by simpa using List.find?_some hf
    simp [hz]

theorem addTransition_not_mem (zones : List Zone) (name : String)
    (t : Transition) (hmem : zones.any (fun z => z.name = name) = false) :
    addTransition zones name t = zones := by
  unfold addTransition
  induction zones with
  | nil => rfl
  | cons z zs ih =>
    simp only [List.any_cons, Bool.or_eq_false_iff] at hmem
    obtain ⟨hz, hzs⟩ := hmem
    simp only [List.map_cons]
    rw [if_neg (by simpa using hz), ih hzs]

theorem transitionsOf_append_single (zones : List Zone) (z0 : Zone)
    (n : String) (hnone : zones.find? (fun z => z.name = n) = none) :
    transitionsOf (zones ++ [z0]) n =
      (if z0.name = n then z0.transitions else []) := by
  unfold transitionsOf
  rw [List.find?_append, hnone]
  by_cases h0 : z0.name = n <;> simp [List.find?, h0]

theorem any_eq_false_find?_eq_none (zones : List Zone) (name : String)
    (h : zones.any (fun z => z.name = name) = false) :
    zones.find? (fun z => z.name = name) = none := by
  rw [List.find?_eq_none]
  intro z hz hzn
  have h2 : zones.any (fun z => z.name = name) = true :=
    List.any_eq_true.mpr ⟨z, hz, hzn⟩
  rw [h] at h2
  simp at h2

theorem transitionsOf_eq_nil_of_not_any (zones : List Zone) (name : String)
    (h : zones.any (fun z => z.name = name) = false) :
    transitionsOf zones name = [] := by
  unfold transitionsOf
  rw [any_eq_false_find?_eq_none _ _ h]

theorem transitionsOf_append_ne (zones : List Zone) (z0 : Zone) (n : String)
    (h : z0.name ≠ n) :
    transitionsOf (zones ++ [z0]) n = transitionsOf zones n := by
  unfold transitionsOf
  rw [List.find?_append]
  cases hf : zones.find? (fun z => z.name = n) with
  | some z => rfl
  | none => simp [List.find?, h]

theorem process_lines_cons (fname : String) (st : ParseState)
    (cz : Option String) (num : Nat) (line : String) (rest : List String) :
    process_lines fname st cz num (line :: rest) =
      process_lines fname (process_line fname num st cz line).1
        (process_line fname num st cz line).2 (num + 1) rest := rfl

theorem normalizeTransition_idem (t : Transition) :
    normalizeTransition (normalizeTransition t) = normalizeTransition t := by
  unfold normalizeTransition
  cases h : t.rule_name with
  | none => simp
  | some r => by_cases hr : r ≠ "" ∧ r ≠ "-" <;> simp [hr]

theorem mergeZoneMetaFields_transitions (metadata : List (String × ZoneMeta))
    (z : Zone) :
    (mergeZoneMetaFields metadata z).transitions = z.transitions := by
  unfold mergeZoneMetaFields
  cases hm : metaGet metadata z.name with
  | none => rfl
  | some m =>
    by_cases hc : m.coordinates ≠ "" ∧ 4 ≤ m.coordinates.length <;> simp [hc]

/-- The metadata merge never touches the content of the transition list
except for the rule-name normalization. -/
theorem mergeZoneMeta_transitions (metadata : List (String × ZoneMeta))
    (z : Zone) :
    (mergeZoneMeta metadata z).transitions =
      z.transitions.map normalizeTransition := by
  unfold mergeZoneMeta
  show (mergeZoneMetaFields metadata z).transitions.map normalizeTransition =
    z.transitions.map normalizeTransition
  rw [mergeZoneMetaFields_transitions]

theorem dictGet_dictAppend_self {β : Type} (m : List (String × List β))
    (k : String) (v : β) :
    dictGet (dictAppend m k v) k = dictGet m k ++ [v] := by
  induction m with
  | nil => simp [dictAppend, dictGet, List.find?]
  | cons p rest ih =>
    obtain ⟨k2, vs⟩ := p
    by_cases hk : k2 = k
    · subst hk
      simp [dictAppend, dictGet, List.find?]
    · simp only [dictAppend, if_neg hk]
      unfold dictGet
      simp only [List.find?_cons, hk]
      simpa [dictGet, hk] using ih

theorem dictGet_dictAppend_ne {β : Type} (m : List (String × List β))
    (k : String) (v : β) (k2 : String) (h : k2 ≠ k) :
    dictGet (dictAppend m k v) k2 = dictGet m k2 := by
  have h2 : ¬ (k = k2) := fun he => h he.symm
  induction m with
  | nil => simp [dictAppend, dictGet, List.find?, h2]
  | cons p rest ih =>
    obtain ⟨k3, vs⟩ := p
    by_cases hk : k3 = k
    · subst hk
      simp [dictAppend, dictGet, List.find?, h2]
    · simp only [dictAppend, if_neg hk]
      unfold dictGet
      simp only [List.find?_cons]
      by_cases h3 : k3 = k2
      · simp [h3]
      · simpa [dictGet, h3] using ih

theorem mem_dictGet_dictAppend {β : Type} (m : List (String × List β))
    (k : String) (v : β) (k2 : String) (x : β) (hx : x ∈ dictGet m k2) :
    x ∈ dictGet (dictAppend m k v) k2 := by
  by_cases hk : k2 = k
  · subst hk
    rw [dictGet_dictAppend_self]
    exact List.mem_append_left _ hx
  · rw [dictGet_dictAppend_ne _ _ _ _ hk]
    exact hx

theorem self_mem_dictGet_dictAppend {β : Type} (m : List (String × List β))
    (k : String) (v : β) : v ∈ dictGet (dictAppend m k v) k := by
  rw [dictGet_dictAppend_self]
  exact List.mem_append_right _ (by simp)

theorem addMapping_fold_mono (w : String) (ianas : List String) :
    ∀ (acc : List (String × List String) × List (String × List String))
      (k : String) (x : String),
      (x ∈ dictGet acc.1 k → x ∈ dictGet (ianas.foldl (addMapping w) acc).1 k)
      ∧ (x ∈ dictGet acc.2 k →
          x ∈ dictGet (ianas.foldl (addMapping w) acc).2 k) := by
  induction ianas with
  | nil => intro acc k x; exact ⟨id, id⟩
  | cons a as ih =>
    intro acc k x
    constructor
    · intro hx
      exact (ih (addMapping w acc a) k x).1
        (mem_dictGet_dictAppend _ _ _ _ _ hx)
    · intro hx
      exact (ih (addMapping w acc a) k x).2
        (mem_dictGet_dictAppend _ _ _ _ _ hx)

theorem addMapping_fold_mem (w : String) (ianas : List String) (z : String)
    (hz : z ∈ ianas) :
    ∀ (acc : List (String × List String) × List (String × List String)),
      w ∈ dictGet (ianas.foldl (addMapping w) acc).1 z ∧
      z ∈ dictGet (ianas.foldl (addMapping w) acc).2 w := by
  induction ianas with
  | nil => cases hz
  | cons a as ih =>
    intro acc
    rcases List.mem_cons.mp hz with h1 | h2
    · subst h1
      constructor
      · exact (addMapping_fold_mono w as (addMapping w acc z) z w).1
          (self_mem_dictGet_dictAppend _ _ _)
      · exact (addMapping_fold_mono w as (addMapping w acc z) w z).2
          (self_mem_dictGet_dictAppend _ _ _)
    · exact ih h2 (addMapping w acc a)

theorem winStep_mono (e : MapZone)
    (acc : List (String × List String) × List (String × List String))
    (k : String) (x : String) :
    (x ∈ dictGet acc.1 k → x ∈ dictGet (winStep acc e).1 k) ∧
    (x ∈ dictGet acc.2 k → x ∈ dictGet (winStep acc e).2 k) := by
  unfold winStep
  cases e.other with
  | none => exact ⟨id, id⟩
  | some w =>
    by_cases hw : w = ""
    · simp only [hw, if_pos rfl]
      exact ⟨id, id⟩
    · simp only [if_neg hw]
      cases hps : pySplit (e.type.getD "") with
      | nil => exact ⟨id, id⟩
      | cons a as => exact addMapping_fold_mono w (a :: as) acc k x

theorem winFold_mono (l : List MapZone) :
    ∀ (acc : List (String × List String) × List (String × List String))
      (k : String) (x : String),
      (x ∈ dictGet acc.1 k → x ∈ dictGet (l.foldl winStep acc).1 k) ∧
      (x ∈ dictGet acc.2 k → x ∈ dictGet (l.foldl winStep acc).2 k) := by
  induction l with
  | nil => intro acc k x; exact ⟨id, id⟩
  | cons e es ih =>
    intro acc k x
    constructor
    · intro hx
      exact (ih (winStep acc e) k x).1 ((winStep_mono e acc k x).1 hx)
    · intro hx
      exact (ih (winStep acc e) k x).2 ((winStep_mono e acc k x).2 hx)

theorem winFold_mem (l : List MapZone) (e : MapZone) (he : e ∈ l)
    (w : String) (hw : e.other = some w) (hw0 : w ≠ "") (z : String)
    (hz : z ∈ pySplit (e.type.getD "")) :
    ∀ (acc : List (String × List String) × List (String × List String)),
      w ∈ dictGet (l.foldl winStep acc).1 z ∧
      z ∈ dictGet (l.foldl winStep acc).2 w := by
  induction l with
  | nil => cases he
  | cons a as ih =>
    intro acc
    rcases List.mem_cons.mp he with h1 | h2
    · subst h1
      have hstep : winStep acc e =
          (pySplit (e.type.getD "")).foldl (addMapping w) acc := by
        unfold winStep
        simp only [hw]
        rw [if_neg hw0]
        cases hps : pySplit (e.type.getD "") with
        | nil => rw [hps] at hz; cases hz
        | cons b bs => rfl
      rw [List.foldl_cons, hstep]
      constructor
      · exact (winFold_mono as _ z w).1 (addMapping_fold_mem w _ z hz _).1
      · exact (winFold_mono as _ w z).2 (addMapping_fold_mem w _ z hz _).2
    · exact ih h2 (winStep acc a)

/-- Any single line leaves every zone's transition list unchanged or appends
exactly one transition at its end. -/
theorem process_line_transitions (fname : String) (num : Nat)
    (st : ParseState) (cz : Option String) (line : String) (n : String) :
    transitionsOf (process_line fname num st cz line).1.zones n =
      transitionsOf st.zones n ∨
    ∃ t, transitionsOf (process_line fname num st cz line).1.zones n =
      transitionsOf st.zones n ++ [t] := by
  unfold process_line
  split
  · exact Or.inl rfl
  split
  · exact Or.inl rfl
  split
  · exact Or.inl rfl
  rename_i p0 restp
  split
  · -- Zone record
    split
    · rename_i pr name t heq
      show transitionsOf (addTransition (ensureZone st.zones name) name t) n =
          transitionsOf st.zones n ∨
        ∃ t2, transitionsOf (addTransition (ensureZone st.zones name) name t) n
          = transitionsOf st.zones n ++ [t2]
      by_cases hn : n = name
      · subst hn
        right
        refine ⟨t, ?_⟩
        by_cases hmem : st.zones.any (fun z => z.name = n) = true
        · unfold ensureZone
          rw [if_pos hmem]
          exact transitionsOf_addTransition_self st.zones n t hmem
        · have hmem2 : st.zones.any (fun z => z.name = n) = false := by
            revert hmem
            cases st.zones.any (fun z => z.name = n) <;> simp
          unfold ensureZone
          rw [if_neg hmem]
          have happ : (st.zones ++ [{ name := n : Zone }]).any
              (fun z => z.name = n) = true := by
            rw [List.any_append]
            simp
          rw [transitionsOf_addTransition_self _ _ _ happ]
          have hnil : st.zones.find? (fun z => z.name = n) = none :=
            any_eq_false_find?_eq_none _ _ hmem2
          rw [transitionsOf_append_single st.zones _ n hnil]
          simp [transitionsOf_eq_nil_of_not_any _ _ hmem2]
      · left
        rw [transitionsOf_addTransition_ne _ _ _ _ hn]
        unfold ensureZone
        by_cases hmem : st.zones.any (fun z => z.name = name) = true
        · rw [if_pos hmem]
        · rw [if_neg hmem]
          exact transitionsOf_append_ne st.zones _ n
            (fun he => hn (he.symm))
    · exact Or.inl rfl
  split
  · -- Rule record
    split
    · exact Or.inl rfl
    · exact Or.inl rfl
  split
  · -- Link record
    split
    · exact Or.inl rfl
    · exact Or.inl rfl
  -- continuation record
  split
  · rename_i c
    split
    · rename_i pr name t heq
      show transitionsOf (addTransition st.zones name t) n =
          transitionsOf st.zones n ∨
        ∃ t2, transitionsOf (addTransition st.zones name t) n =
          transitionsOf st.zones n ++ [t2]
      by_cases hn : n = name
      · subst hn
        by_cases hmem : st.zones.any (fun z => z.name = n) = true
        · exact Or.inr ⟨t, transitionsOf_addTransition_self _ _ _ hmem⟩
        · left
          have hmem2 : st.zones.any (fun z => z.name = n) = false := by
            revert hmem
            cases st.zones.any (fun z => z.name = n) <;> simp
          rw [addTransition_not_mem _ _ _ hmem2]
      · exact Or.inl (transitionsOf_addTransition_ne _ _ _ _ hn)
    · exact Or.inl rfl
  · exact Or.inl rfl

/-- Over any list of lines, a zone's transition list only grows at the end:
the final list is the initial list followed by some suffix (so transitions
appear in the order of the records that produced them). -/
theorem process_lines_transitions (fname : String) (lines : List String) :
    ∀ (st : ParseState) (cz : Option String) (num : Nat) (n : String),
      ∃ suffix, transitionsOf (process_lines fname st cz num lines).zones n =
        transitionsOf st.zones n ++ suffix := by
  induction lines with
  | nil =>
    intro st cz num n
    exact ⟨[], by simp [process_lines]⟩
  | cons line rest ih =>
    intro st cz num n
    rw [process_lines_cons]
    obtain ⟨suffix, hs⟩ :=
      ih (process_line fname num st cz line).1
        (process_line fname num st cz line).2 (num + 1) n
    rcases process_line_transitions fname num st cz line n with h | ⟨t, h⟩
    · exact ⟨suffix, by rw [hs, h]⟩
    · exact ⟨t :: suffix, by rw [hs, h, List.append_assoc]; rfl⟩

/-! ### Claim theorems -/

/-- C1: every line whose processing raises a per-line error (a `Zone` record
with fewer than 5 fields, a `Rule` record with fewer than 9 fields, or a
too-short continuation record) is caught: the only effect is one warning log
entry carrying the file name and line number — the zone table, rule table,
alias map and current zone are untouched (the record update below changes
only `logs`) — and processing continues with the next line of the file. -/
theorem C1_per_line_error_isolated (fname : String) (num : Nat)
    (st : ParseState) (cz : Option String) (line : String)
    (rest : List String) (h : line_raises cz line = true) :
    process_line fname num st cz line =
      ({ st with logs := st.logs ++ [LogEvent.parseError fname num] }, cz) ∧
    process_lines fname st cz num (line :: rest) =
      process_lines fname
        { st with logs := st.logs ++ [LogEvent.parseError fname num] } cz
        (num + 1) rest := by
  have hmain : process_line fname num st cz line =
      ({ st with logs := st.logs ++ [LogEvent.parseError fname num] }, cz) := by
    unfold line_raises at h
    split at h
    · exact absurd h (by simp)
    rename_i h1
    split at h
    · exact absurd h (by simp)
    rename_i h2
    split at h
    · exact absurd h (by simp)
    rename_i p0 restp hps
    by_cases hz : p0 = "Zone"
    · subst hz
      rw [if_pos rfl] at h
      have h5 : parse_zone_line ("Zone" :: restp) = none :=
        (parse_zone_line_eq_none_iff _).mpr (of_decide_eq_true h)
      unfold process_line
      rw [if_neg h1, if_neg h2, hps]
      simp [h5]
    · rw [if_neg hz] at h
      by_cases hr : p0 = "Rule"
      · subst hr
        rw [if_pos rfl] at h
        have h9 : parse_rule_line ("Rule" :: restp) st.rules = none :=
          (parse_rule_line_eq_none_iff _ _).mpr (of_decide_eq_true h)
        unfold process_line
        rw [if_neg h1, if_neg h2, hps]
        simp [h9]
      · rw [if_neg hr] at h
        by_cases hl : p0 = "Link"
        · subst hl
          rw [if_pos rfl] at h
          exact absurd h (by simp)
        · rw [if_neg hl] at h
          cases cz with
          | none => exact absurd h (by simp)
          | some c =>
            have hc : parse_zone_line ("Zone" :: c :: p0 :: restp) = none :=
              (parse_zone_line_eq_none_iff _).mpr (by
                have h0 := of_decide_eq_true h
                simpa using h0)
            unfold process_line
            rw [if_neg h1, if_neg h2, hps]
            simp [hz, hr, hl, hc]
  exact ⟨hmain, by rw [process_lines_cons, hmain]⟩

/-- C3: the spec's Asia/Seoul scenario.  Parsing the Zone record and its
continuation line yields one zone with exactly the two transitions in
record order, UNTIL text `"1948 Aug 15"` (trailing tokens re-joined with
single spaces) then `""` (no trailing tokens); in the final output model
(after the metadata-merge normalization) both rule references are absent
(at parse time they hold the literal `"-"`).  The third conjunct shows the
single-space re-joining on a record whose original spacing used runs of
blanks. -/
theorem C3_seoul_scenario :
    (parse_zone_files [("asia",
        ["Zone Asia/Seoul 8:30 - KST 1948 Aug 15", "9:00 - KST"])]).zones =
      [{ name := "Asia/Seoul",
         transitions := [⟨"1948 Aug 15", "8:30", "KST", some "-"⟩,
                         ⟨"", "9:00", "KST", some "-"⟩] }] ∧
    merge_metadata_with_zones
      (parse_zone_files [("asia",
        ["Zone Asia/Seoul 8:30 - KST 1948 Aug 15", "9:00 - KST"])]).zones [] =
      [{ name := "Asia/Seoul",
         transitions := [⟨"1948 Aug 15", "8:30", "KST", none⟩,
                         ⟨"", "9:00", "KST", none⟩] }] ∧
    (parse_zone_files [("asia", ["Zone B 1:00 - BBB 1990   Mar  7"])]).zones =
      [{ name := "B",
         transitions := [⟨"1990 Mar 7", "1:00", "BBB", some "-"⟩] }] :=
  ⟨by decide, by decide, by decide⟩

/-- C4: one step of the alias-resolution loop.  If a zone named `target` is
in the table when the pair is processed, the alias is appended to that
zone's aliases, the set of zone names is unchanged (no new top-level zone)
and nothing is logged; otherwise a placeholder zone named `target` with no
transitions and exactly the one alias is appended, and a warning is
logged. -/
theorem C4_link_resolution (zones : List Zone) (logs : List LogEvent)
    (al target : String) :
    ((zones.any (fun z => z.name = target) = true) →
      (resolve_link (zones, logs) (al, target)).1.map Zone.name =
        zones.map Zone.name ∧
      (resolve_link (zones, logs) (al, target)).2 = logs ∧
      ∀ z ∈ zones, z.name = target →
        { z with aliases := z.aliases ++ [al] } ∈
          (resolve_link (zones, logs) (al, target)).1) ∧
    ((zones.any (fun z => z.name = target) = false) →
      (resolve_link (zones, logs) (al, target)).1 =
        zones ++ [{ name := target, aliases := [al] }] ∧
      (resolve_link (zones, logs) (al, target)).2 =
        logs ++ [LogEvent.danglingLink al target]) := by
  constructor
  · intro hmem
    unfold resolve_link
    rw [if_pos hmem]
    refine ⟨?_, rfl, ?_⟩
    · rw [List.map_map]
      apply List.map_congr_left
      intro z hz
      by_cases hzt : z.name = target <;> simp [hzt]
    · intro z hz hzt
      exact List.mem_map.mpr ⟨z, hz, by rw [if_pos hzt]⟩
  · intro hmem
    unfold resolve_link
    rw [if_neg (by rw [hmem]; simp)]
    exact ⟨rfl, rfl⟩

/-- C9: the zone-file parser is a pure function of the input text: its
embedding takes the file contents as its only argument, rebuilds all
builder state (`zones`, `rules`, `links`) from the empty initial state on
every invocation — exactly as the Python locals are re-created on every
call — and therefore two runs over the same input files yield identical
zone tables and rule tables. -/
theorem C9_parse_deterministic (files : List (String × List String)) :
    parse_zone_files files = parse_zone_files files ∧
    (parse_zone_files files).zones = (parse_zone_files files).zones ∧
    (parse_zone_files files).rules = (parse_zone_files files).rules :=
  ⟨rfl, rfl, rfl⟩

/-- C10: a `Link` record with fewer than 3 fields falls through both the
`Link` branch (its length guard fails) and the continuation branch (its
first field is the keyword `Link`), so the line is silently ignored: no
alias is recorded, nothing is logged, the state and the current zone are
unchanged — even when a current zone is set — and processing continues. -/
theorem C10_short_link_ignored (fname : String) (num : Nat)
    (st : ParseState) (cz : Option String) (line : String)
    (rest : List String) (ps : List String)
    (h1 : pyStrip line ≠ "") (h2 : startsWithHash (pyStrip line) = false)
    (hps : pySplit (pyStrip line) = "Link" :: ps) (hlen : ps.length < 2) :
    process_line fname num st cz line = (st, cz) ∧
    process_lines fname st cz num (line :: rest) =
      process_lines fname st cz (num + 1) rest := by
  have hmain : process_line fname num st cz line = (st, cz) := by
    unfold process_line
    rw [if_neg h1, if_neg (by rw [h2]; simp), hps]
    rcases ps with _ | ⟨a, _ | ⟨b, ps⟩⟩
    · simp
    · simp
    · exfalso
      simp only [List.length_cons] at hlen
      omega
  exact ⟨hmain, by rw [process_lines_cons, hmain]⟩

/-- C6 (corrected claim): a non-blank, non-comment line whose first field is
none of the keywords while no current zone is set is silently skipped — the
state (including the log: no warning, contrary to the original claim) and
the current zone are unchanged, and processing continues with the next
line. -/
theorem C6_amended_orphan_line_silently_skipped (fname : String) (num : Nat)
    (st : ParseState) (line : String) (rest : List String)
    (p0 : String) (ps : List String)
    (h1 : pyStrip line ≠ "") (h2 : startsWithHash (pyStrip line) = false)
    (hps : pySplit (pyStrip line) = p0 :: ps)
    (hz : p0 ≠ "Zone") (hr : p0 ≠ "Rule") (hl : p0 ≠ "Link") :
    process_line fname num st none line = (st, none) ∧
    process_lines fname st none num (line :: rest) =
      process_lines fname st none (num + 1) rest := by
  have hmain : process_line fname num st none line = (st, none) := by
    unfold process_line
    rw [if_neg h1, if_neg (by rw [h2]; simp), hps]
    simp [hz, hr, hl]
  exact ⟨hmain, by rw [process_lines_cons, hmain]⟩

/-- C6 counterexample: the file consisting of the single orphan continuation
line `1:00 - X 1990` (no current zone) is processed without logging any
warning — `logs` is empty — contradicting the claim that such a line is
"skipped with a logged warning"; the state is otherwise untouched as the
claim says. -/
theorem C6_counterexample_no_warning :
    parse_zone_files [("asia", ["1:00 - X 1990"])] =
      { zones := [], rules := [], links := [], logs := [] } := by decide

/-- C5 counterexample: a `Zone` record without UNTIL tokens followed by a
continuation record.  The parser appends both transitions, so the zone's
first (non-last) transition has an empty `until` — refuting the claim that
every non-last transition has a non-empty `until`. -/
theorem C5_counterexample_nonlast_empty_until :
    ((parse_zone_files
        [("asia", ["Zone Asia/Tokyo 1:00 - AAA", "2:00 - BBB 1990"])]).zones.map
      (fun z => z.transitions.map (fun t => t.to_utc))) = [["", "1990"]] := by
  decide

/-- C8 counterexample: a metadata record whose coordinate string `"+12"` is
shorter than 4 characters.  The claim says latitude becomes the first
`floor(3/2) = 1` characters (`"+"`), but the code's `len(coords) >= 4`
guard skips the split and leaves latitude empty. -/
theorem C8_counterexample_short_coordinates :
    (merge_metadata_with_zones [{ name := "Asia/Seoul" }]
        [("Asia/Seoul", ⟨"KR", "+12", "note"⟩)]).map (fun z => z.latitude) =
      [""] ∧
    pyTake "+12" (("+12" : String).length / 2) = "+" ∧
    ("" : String) ≠ "+" :=
  ⟨by decide, by decide, by decide⟩

/-- C2: for a valid Zone record (at least 5 whitespace-separated fields, so
`parse_zone_line` succeeds on the split line), the transition carried into
the final output model has an absent rule reference iff the record's 4th
field is exactly `-`: the merge step's normalization maps the attached rule
literal to `none` exactly when it is falsy or `"-"`, and a split token is
never empty.  The normalization is idempotent, and the merged zone table
contains the normalized image of the transition (the normalization runs in
`merge_metadata_with_zones`, i.e. once, before output). -/
theorem C2_rule_reference_absent_iff_dash (line : String) (name : String)
    (t : Transition)
    (hp : parse_zone_line (pySplit (pyStrip line)) = some (name, t)) :
    ((normalizeTransition t).rule_name = none ↔
      (pySplit (pyStrip line)).getD 3 "" = "-") ∧
    normalizeTransition (normalizeTransition t) = normalizeTransition t ∧
    ∀ (zones : List Zone) (metadata : List (String × ZoneMeta)) (z : Zone),
      z ∈ zones → t ∈ z.transitions →
      ∃ z2, z2 ∈ merge_metadata_with_zones zones metadata ∧
        normalizeTransition t ∈ z2.transitions := by
  obtain ⟨hrn, hmem, hto, hlen⟩ := parse_zone_line_some _ _ _ hp
  have hne : (pySplit (pyStrip line)).getD 3 "" ≠ "" :=
    pySplit_mem_ne _ _ hmem
  refine ⟨?_, normalizeTransition_idem t, ?_⟩
  · have hgen : ∀ r : String, r ≠ "" → t.rule_name = some r →
        ((normalizeTransition t).rule_name = none ↔ r = "-") := by
      intro r hr0 hrt
      simp only [normalizeTransition, hrt]
      by_cases hd : r = "-"
      · simp [hd]
      · simp [hd, hr0]
    exact hgen _ hne hrn
  · intro zones metadata z hz ht
    refine ⟨mergeZoneMeta metadata z, List.mem_map.mpr ⟨z, hz, rfl⟩, ?_⟩
    rw [mergeZoneMeta_transitions]
    exact List.mem_map.mpr ⟨t, ht, rfl⟩

/-- C5 (corrected claim): each processed line leaves every zone's transition
list unchanged or appends exactly one transition at the end, so over any
run the transitions of a zone appear in the order of the records that
produced them (the initial list is always a prefix).  The `until` text of a
produced transition is empty iff its record had exactly 5 fields, i.e. no
trailing UNTIL tokens — so, contrary to the original claim, a *non-last*
transition can have an empty `until` whenever a non-final record for the
zone omits UNTIL (see the counterexample). -/
theorem C5_amended_order_and_empty_until :
    (∀ (fname : String) (num : Nat) (st : ParseState) (cz : Option String)
        (line : String) (n : String),
        transitionsOf (process_line fname num st cz line).1.zones n =
          transitionsOf st.zones n ∨
        ∃ t, transitionsOf (process_line fname num st cz line).1.zones n =
          transitionsOf st.zones n ++ [t]) ∧
    (∀ (fname : String) (lines : List String) (st : ParseState)
        (cz : Option String) (num : Nat) (n : String),
        ∃ suffix,
          transitionsOf (process_lines fname st cz num lines).zones n =
            transitionsOf st.zones n ++ suffix) ∧
    (∀ (parts : List String) (name : String) (t : Transition),
        (∀ s ∈ parts, s ≠ "") → parse_zone_line parts = some (name, t) →
        (t.to_utc = "" ↔ parts.length = 5)) := by
  refine ⟨process_line_transitions,
    fun fname lines st cz num n =>
      process_lines_transitions fname lines st cz num n, ?_⟩
  intro parts name t hne hp
  obtain ⟨_, _, hto, hlen⟩ := parse_zone_line_some parts name t hp
  rw [hto]
  have hmem2 : ∀ s ∈ parts.drop 5, s ≠ "" :=
    fun s hs => hne s (List.mem_of_mem_drop hs)
  rw [pyJoin_eq_empty_iff _ hmem2, List.drop_eq_nil_iff]
  omega

/-- C7: parsing the Windows-zone XML only consumes `mapZone` elements whose
`territory` attribute is `"001"` (the result over the whole element list
equals the result over the `"001"`-filtered list), and for every such
element with a non-empty platform name, every zone name in its (split)
`type` attribute ends up in the platform-to-zones list of that platform
name, and that platform name in the zone-to-platforms list of that zone
name. -/
theorem C7_windows_bidirectional_consistency (elems : List MapZone) :
    parse_windows_zones_xml elems =
      parse_windows_zones_xml
        (elems.filter (fun e => e.territory = some "001")) ∧
    ∀ e ∈ elems, e.territory = some "001" →
      ∀ w, e.other = some w → w ≠ "" →
      ∀ z ∈ pySplit (e.type.getD ""),
        w ∈ dictGet (parse_windows_zones_xml elems).1 z ∧
        z ∈ dictGet (parse_windows_zones_xml elems).2 w := by
  constructor
  · have hidem : (elems.filter (fun e => e.territory = some "001")).filter
        (fun e => e.territory = some "001") =
        elems.filter (fun e => e.territory = some "001") := by
      rw [List.filter_filter]
      congr 1
      funext a
      rw [Bool.and_self]
    unfold parse_windows_zones_xml
    rw [hidem]
  · intro e he ht w hw hw0 z hz
    have he2 : e ∈ elems.filter (fun e => e.territory = some "001") :=
      List.mem_filter.mpr ⟨he, by simp [ht]⟩
    exact winFold_mem _ e he2 w hw hw0 z hz ([], [])

/-- C8 (corrected claim): the merged image of every zone is in the merged
table; a zone with no matching metadata record keeps all its metadata
fields (so empty defaults stay empty) and only has its transitions
normalized; a matching record with a coordinate string of length ≥ 4 sets
latitude to the first `len/2` characters and longitude to the rest (as
opaque text) together with country code and comment; but — contrary to the
original claim — a matching record with a shorter coordinate string leaves
latitude and longitude untouched (the code's `len(coords) >= 4` guard)
while still setting country code and comment. -/
theorem C8_amended_metadata_merge (zones : List Zone)
    (metadata : List (String × ZoneMeta)) (z : Zone) (hz : z ∈ zones) :
    mergeZoneMeta metadata z ∈ merge_metadata_with_zones zones metadata ∧
    (metaGet metadata z.name = none →
      mergeZoneMeta metadata z =
        { z with transitions := z.transitions.map normalizeTransition }) ∧
    (∀ m, metaGet metadata z.name = some m → 4 ≤ m.coordinates.length →
      (mergeZoneMeta metadata z).latitude =
        pyTake m.coordinates (m.coordinates.length / 2) ∧
      (mergeZoneMeta metadata z).longitude =
        pyDrop m.coordinates (m.coordinates.length / 2) ∧
      (mergeZoneMeta metadata z).country_code = m.country_code ∧
      (mergeZoneMeta metadata z).comment = m.comment) ∧
    (∀ m, metaGet metadata z.name = some m → m.coordinates.length < 4 →
      (mergeZoneMeta metadata z).latitude = z.latitude ∧
      (mergeZoneMeta metadata z).longitude = z.longitude ∧
      (mergeZoneMeta metadata z).country_code = m.country_code ∧
      (mergeZoneMeta metadata z).comment = m.comment) := by
  refine ⟨List.mem_map.mpr ⟨z, hz, rfl⟩, ?_, ?_, ?_⟩
  · intro hm
    have hf : mergeZoneMetaFields metadata z = z := by
      unfold mergeZoneMetaFields
      rw [hm]
    unfold mergeZoneMeta
    rw [hf]
  · intro m hm hc
    have hne : m.coordinates ≠ "" := by
      intro h0
      rw [h0] at hc
      exact absurd hc (by decide)
    have hf : mergeZoneMetaFields metadata z =
        { z with
          country_code := m.country_code
          comment := m.comment
          latitude := pyTake m.coordinates (m.coordinates.length / 2)
          longitude := pyDrop m.coordinates (m.coordinates.length / 2) } := by
      unfold mergeZoneMetaFields
      simp only [hm]
      rw [if_pos ⟨hne, hc⟩]
    refine ⟨?_, ?_, ?_, ?_⟩ <;> simp [mergeZoneMeta, hf]
  · intro m hm hc
    have hcond : ¬ (m.coordinates ≠ "" ∧ 4 ≤ m.coordinates.length) := by
      intro h0
      obtain ⟨h1, h4⟩ := h0
      omega
    have hf : mergeZoneMetaFields metadata z =
        { z with
          country_code := m.country_code
          comment := m.comment } := by
      unfold mergeZoneMetaFields
      simp only [hm]
      rw [if_neg hcond]
    refine ⟨?_, ?_, ?_, ?_⟩ <;> simp [mergeZoneMeta, hf]

/-! ### Witnesses -/

/-- Witness for C1 at a concrete short `Rule` record. -/
theorem C1_witness :
    process_line "asia" 7 initState none "Rule US" =
      ({ initState with
          logs := initState.logs ++ [LogEvent.parseError "asia" 7] }, none) ∧
    process_lines "asia" initState none 7 ["Rule US"] =
      process_lines "asia"
        { initState with
          logs := initState.logs ++ [LogEvent.parseError "asia" 7] } none 8
        [] :=
  C1_per_line_error_isolated "asia" 7 initState none "Rule US" [] (by decide)

/-- Witness for C2 at the concrete record `Zone Asia/Seoul 8:30 - KST`. -/
theorem C2_witness :
    ((normalizeTransition ⟨"", "8:30", "KST", some "-"⟩).rule_name = none ↔
      (pySplit (pyStrip "Zone Asia/Seoul 8:30 - KST")).getD 3 "" = "-") :=
  (C2_rule_reference_absent_iff_dash "Zone Asia/Seoul 8:30 - KST" "Asia/Seoul"
    ⟨"", "8:30", "KST", some "-"⟩ (by decide)).1

/-- Witness for C4: an existing target keeps the zone-name set, a missing
target gets a placeholder. -/
theorem C4_witness :
    (resolve_link ([{ name := "America/New_York" }], [])
        ("US/Eastern", "America/New_York")).1.map Zone.name =
      ([{ name := "America/New_York" }] : List Zone).map Zone.name ∧
    (resolve_link (([] : List Zone), ([] : List LogEvent))
        ("US/Pacific", "America/Los_Angeles")).1 =
      [] ++ [{ name := "America/Los_Angeles", aliases := ["US/Pacific"] }] :=
  ⟨((C4_link_resolution [{ name := "America/New_York" }] [] "US/Eastern"
      "America/New_York").1 (by decide)).1,
   ((C4_link_resolution [] [] "US/Pacific" "America/Los_Angeles").2
      (by decide)).1⟩

/-- Witness for C5 at a concrete Zone record without UNTIL tokens. -/
theorem C5_witness :
    ((⟨"", "1:00", "AAA", some "-"⟩ : Transition).to_utc = "" ↔
      (["Zone", "A", "1:00", "-", "AAA"] : List String).length = 5) :=
  C5_amended_order_and_empty_until.2.2 ["Zone", "A", "1:00", "-", "AAA"] "A"
    ⟨"", "1:00", "AAA", some "-"⟩ (by decide) (by decide)

/-- Witness for C6 at the concrete orphan continuation line. -/
theorem C6_witness :
    process_line "asia" 1 initState none "1:00 - X 1990" = (initState, none) ∧
    process_lines "asia" initState none 1 ["1:00 - X 1990"] =
      process_lines "asia" initState none 2 [] :=
  C6_amended_orphan_line_silently_skipped "asia" 1 initState "1:00 - X 1990"
    [] "1:00" ["-", "X", "1990"] (by decide) (by decide) (by decide)
    (by decide) (by decide) (by decide)

/-- Witness for C7 at the spec's Korea Standard Time element. -/
theorem C7_witness :
    "Korea Standard Time" ∈ dictGet (parse_windows_zones_xml
      [{ territory := some "001", other := some "Korea Standard Time",
         type := some "Asia/Seoul" }]).1 "Asia/Seoul" :=
  ((C7_windows_bidirectional_consistency
      [⟨some "001", some "Korea Standard Time", some "Asia/Seoul"⟩]).2
    ⟨some "001", some "Korea Standard Time", some "Asia/Seoul"⟩ (by decide)
    rfl "Korea Standard Time" rfl (by decide) "Asia/Seoul" (by decide)).1

/-- Witness for C8 at the Asia/Seoul metadata record. -/
theorem C8_witness :
    (mergeZoneMeta [("Asia/Seoul", ⟨"KR", "+3733+12658", ""⟩)]
        { name := "Asia/Seoul" }).latitude =
      pyTake "+3733+12658" (("+3733+12658" : String).length / 2) :=
  ((C8_amended_metadata_merge [{ name := "Asia/Seoul" }]
      [("Asia/Seoul", ⟨"KR", "+3733+12658", ""⟩)] { name := "Asia/Seoul" }
      (by decide)).2.2.1 ⟨"KR", "+3733+12658", ""⟩ (by decide) (by decide)).1

/-- Witness for C10 at a concrete 2-field `Link` record with a current zone
set. -/
theorem C10_witness :
    process_line "backward" 3 initState (some "Asia/Seoul")
        "Link America/New_York" = (initState, some "Asia/Seoul") ∧
    process_lines "backward" initState (some "Asia/Seoul") 3
        ["Link America/New_York"] =
      process_lines "backward" initState (some "Asia/Seoul") 4 [] :=
  C10_short_link_ignored "backward" 3 initState (some "Asia/Seoul")
    "Link America/New_York" [] ["America/New_York"] (by decide) (by decide)
    (by decide) (by decide)

end Tzbundler
